import Mathlib

/-!
Verification of the dialogchain message-processing engine.

This file shallowly embeds the parts of the code base that the checked
properties talk about:

* `src/dialogchain/processors/filter.py`  — `FilterProcessor`
* `src/dialogchain/processors/aggregate.py` — `AggregateProcessor`
* `src/dialogchain/processors/external.py` — `ExternalProcessor`
* `src/dialogchain/engine/core.py` — `DialogChainEngine.start` / `stop`
* `src/dialogchain/engine/connector.py` — `ConnectorManager._parse_uri`,
  `ConnectorManager._create_source_from_uri`
* `src/dialogchain/engine/utils.py` — `parse_uri`

Python values are modelled by the inductive `PyVal` (numbers as `ℚ`,
floats carry no rounding relevant to the claims), Python `None` by
`PyVal.vnone`, dictionaries by association lists, and the drop sentinel
`None` returned by `process` by `Option.none`.  Wall-clock time
(`time.time()`) is an explicit `ℚ` argument.  Operations that may raise
exceptions in Python are either embedded in `Except` or given an
explicit success flag; host facilities that the code merely calls
(`asyncio.create_task`, the external command, `os.unlink`) are oracles
supplied as arguments.
-/

namespace DialogChain

/-- Model of a Python value as it flows through a processor. -/
inductive PyVal where
  /-- an `int`, `float` or other real number -/
  | vnum (q : ℚ)
  /-- a `str` -/
  | vstr (s : String)
  /-- a `bool` (in Python a subtype of `int`) -/
  | vbool (b : Bool)
  /-- `None` -/
  | vnone
  /-- a `dict` with string keys, as an association list -/
  | vdict (fields : List (String × PyVal))
  /-- a `list` -/
  | vlist (items : List PyVal)

/-- Whether a value is a Python `dict` (`isinstance(x, dict)`). -/
def PyVal.isDict : PyVal → Bool
  | .vdict _ => true
  | _ => false

/-- `d.get(key)` on a Python dict: the value at the first matching key,
or `none` when the key is absent. -/
def dictGet (fields : List (String × PyVal)) (key : String) : Option PyVal :=
  match fields with
  | [] => none
  | (k, v) :: rest => if k = key then some v else dictGet rest key

/-- Strip leading and trailing whitespace, as Python `float(str)` does
before parsing. -/
def trimWs (l : List Char) : List Char :=
  ((l.dropWhile Char.isWhitespace).reverse.dropWhile Char.isWhitespace).reverse

/-- Digits of a decimal numeral, most significant first, as a `ℕ`. -/
def digitsToNat : List Char → ℕ → ℕ
  | [], acc => acc
  | c :: rest, acc => digitsToNat rest (acc * 10 + (c.toNat - '0'.toNat))

/-- Model of Python `float(s)` on a string: optional sign, then
`digits`, `digits.digits` or `.digits`; anything else raises
`ValueError`, modelled as `none`.  (Python also accepts exponents and
`inf`/`nan`; the code under verification never relies on those forms.) -/
def pyStrToRat : String → Option ℚ :=
  fun s =>
    let cs := trimWs s.toList
    let (sign, cs) : ℚ × List Char :=
      match cs with
      | '-' :: rest => (-1, rest)
      | '+' :: rest => (1, rest)
      | _ => (1, cs)
    let intPart := cs.takeWhile Char.isDigit
    let rest := cs.dropWhile Char.isDigit
    match rest with
    | [] =>
        if intPart.isEmpty then none
        else some (sign * digitsToNat intPart 0)
    | '.' :: frac =>
        if frac.all Char.isDigit ∧ ¬(intPart.isEmpty ∧ frac.isEmpty) then
          some (sign * ((digitsToNat intPart 0 : ℚ) +
            (digitsToNat frac 0 : ℚ) / ((10 : ℚ) ^ frac.length)))
        else none
    | _ => none

/-- Model of Python `float(x)` on an arbitrary value: numbers and
booleans convert, strings are parsed, everything else raises
`TypeError` (`none`). -/
def pyFloat : PyVal → Option ℚ
  | .vnum q => some q
  | .vbool b => some (if b then 1 else 0)
  | .vstr s => pyStrToRat s
  | _ => none

/-! ## FilterProcessor (`src/dialogchain/processors/filter.py`)

`_evaluate_condition` delegates to the host language's `eval` builtin,
which is outside this repository; it is abstracted as an argument
`evalCond : String → PyVal → Bool` of `Filter.process`.  The
confidence check is embedded fully. -/

/-- Configuration of a `FilterProcessor` (constructor arguments). -/
structure FilterConfig where
  minConfidence : Option ℚ
  condition : Option String

/-- `FilterProcessor._check_confidence`: the message must be a dict,
must carry a `confidence` key whose value is not `None`, and
`float(confidence) >= min_confidence` must hold; a `float` conversion
failure yields `False`. -/
def Filter.checkConfidence (message : PyVal) (minConfidence : ℚ) : Bool :=
  match message with
  | .vdict fields =>
      match dictGet fields "confidence" with
      | none => false
      | some .vnone => false
      | some v =>
          match pyFloat v with
          | some c => decide (minConfidence ≤ c)
          | none => false
  | _ => false

/-- `FilterProcessor.process`: apply the confidence check when
`min_confidence` is set, then the condition when set; return the
message when both pass and the drop sentinel `none` otherwise. -/
def Filter.process (evalCond : String → PyVal → Bool) (cfg : FilterConfig)
    (message : PyVal) : Option PyVal :=
  match cfg.minConfidence with
  | some minc =>
      if Filter.checkConfidence message minc then
        match cfg.condition with
        | some c => if evalCond c message then some message else none
        | none => some message
      else none
  | none =>
      match cfg.condition with
      | some c => if evalCond c message then some message else none
      | none => some message

/-! ## AggregateProcessor (`src/dialogchain/processors/aggregate.py`)

The processor's mutable attributes `buffer`, `_last_flush_time` and
`_flush_task` become the explicit state `AggState`; a live (not yet
cancelled, not yet fired) `_flush_task` is the flag
`flushTaskPending`.  `time.time()` is the explicit argument `now`. -/

/-- Constructor arguments of an `AggregateProcessor` (`strategy` is
stored lowercased, `timeout` parsed to seconds). -/
structure AggConfig where
  strategy : String
  timeout : ℚ
  maxSize : ℕ

/-- Mutable state of an `AggregateProcessor`. -/
structure AggState where
  buffer : List PyVal
  lastFlushTime : ℚ
  flushTaskPending : Bool

/-- One term of the generator `float(x) if isinstance(x, (int, float,
str)) else 0` used by the `sum` and `average` strategies: numbers and
booleans convert, strings are parsed by `float` (failure raises,
modelled as `none`), any other value contributes `0`. -/
def coerceForSum : PyVal → Option ℚ
  | .vnum q => some q
  | .vbool b => some (if b then 1 else 0)
  | .vstr s => pyStrToRat s
  | _ => some 0

/-- Evaluate the whole generator: the first string that fails to parse
raises out of `sum(...)`, so the entire evaluation yields `none`. -/
def coerceAll : List PyVal → Option (List ℚ)
  | [] => some []
  | x :: rest =>
      match coerceForSum x with
      | none => none
      | some q =>
          match coerceAll rest with
          | none => none
          | some l => some (q :: l)

/-- `AggregateProcessor._apply_strategy`.  An empty buffer yields
`None`; `collect` returns the buffer, `sum`/`average` fold the coerced
numbers (any raised `ValueError` is caught and `0` returned), `count`
returns the cardinality, and an unknown strategy returns the buffer. -/
def applyStrategy (strategy : String) (buffer : List PyVal) : PyVal :=
  if buffer.isEmpty then .vnone
  else if strategy = "collect" then .vlist buffer
  else if strategy = "sum" then
    match coerceAll buffer with
    | some l => .vnum l.sum
    | none => .vnum 0
  else if strategy = "average" then
    match coerceAll buffer with
    | some l => .vnum (l.sum / (l.length : ℚ))
    | none => .vnum 0
  else if strategy = "count" then .vnum (buffer.length : ℚ)
  else .vlist buffer

/-- `AggregateProcessor._flush`.  An empty buffer returns `None` and
leaves the state alone; otherwise the pending flush task is cancelled,
the buffer is cleared, `_last_flush_time` is set to the current time,
and the aggregated result is returned.  (The optional flush callback
receives the buffer but does not affect result or state.) -/
def Agg.flush (strategy : String) (st : AggState) (now : ℚ) :
    Option PyVal × AggState :=
  if st.buffer.isEmpty then (none, st)
  else (some (applyStrategy strategy st.buffer), ⟨[], now, false⟩)

/-- The decision chain of `AggregateProcessor.process` after the
message has been appended to the buffer: flush when the buffer reached
`max_size`; else flush when a previous flush time is set and `timeout`
has elapsed; else, on the first message (`_last_flush_time == 0`),
record the time and schedule a deferred flush; otherwise just buffer. -/
def Agg.afterAppend (cfg : AggConfig) (st1 : AggState) (now : ℚ) :
    Option PyVal × AggState :=
  if cfg.maxSize ≤ st1.buffer.length then
    Agg.flush cfg.strategy st1 now
  else if 0 < st1.lastFlushTime ∧ cfg.timeout ≤ now - st1.lastFlushTime then
    Agg.flush cfg.strategy st1 now
  else if st1.lastFlushTime = 0 then
    (none, ⟨st1.buffer, now, true⟩)
  else (none, st1)

/-- `AggregateProcessor.process` (the body inside its `try`): append
the message, then run the flush/schedule decision chain. -/
def Agg.process (cfg : AggConfig) (st : AggState) (now : ℚ) (msg : PyVal) :
    Option PyVal × AggState :=
  Agg.afterAppend cfg ⟨st.buffer ++ [msg], st.lastFlushTime, st.flushTaskPending⟩ now

/-- `AggregateProcessor.close`: flush the remaining messages (if any),
then cancel any pending flush task.  The flush result is the final
emitted aggregate. -/
def Agg.close (cfg : AggConfig) (st : AggState) (now : ℚ) :
    Option PyVal × AggState :=
  if st.buffer.isEmpty then (none, ⟨st.buffer, st.lastFlushTime, false⟩)
  else
    ((Agg.flush cfg.strategy st now).1,
     ⟨(Agg.flush cfg.strategy st now).2.buffer,
      (Agg.flush cfg.strategy st now).2.lastFlushTime, false⟩)

/-- Feed a list of timestamped messages through `Agg.process`,
collecting the per-call results. -/
def Agg.run (cfg : AggConfig) (st : AggState) :
    List (ℚ × PyVal) → List (Option PyVal) × AggState
  | [] => ([], st)
  | (t, m) :: rest =>
      ((Agg.process cfg st t m).1 ::
        (Agg.run cfg (Agg.process cfg st t m).2 rest).1,
       (Agg.run cfg (Agg.process cfg st t m).2 rest).2)

/-- Whether a single `process` call would take the timeout-elapsed
flush branch (evaluated only when the size branch does not fire). -/
def Agg.stepFiresTimeout (cfg : AggConfig) (st : AggState) (now : ℚ) : Bool :=
  decide (st.buffer.length + 1 < cfg.maxSize) &&
  decide (0 < st.lastFlushTime) && decide (cfg.timeout ≤ now - st.lastFlushTime)

/-- No call in the run takes the timeout-elapsed flush branch. -/
def Agg.runTimeoutFree (cfg : AggConfig) (st : AggState) :
    List (ℚ × PyVal) → Bool
  | [] => true
  | (t, m) :: rest =>
      !Agg.stepFiresTimeout cfg st t &&
      Agg.runTimeoutFree cfg (Agg.process cfg st t m).2 rest

/-- Sites inside `AggregateProcessor.process`'s `try` block at which
the host runtime may raise (`buffer.append`, `asyncio.create_task` in
`_schedule_flush`, and the awaited `_flush`). -/
structure AggOracles where
  appendErr : Option String
  scheduleErr : Option String
  flushErr : Option String

/-- The body of `AggregateProcessor.process` inside its `try`, with the
possible exception sites made explicit. -/
def Agg.processExc (o : AggOracles) (cfg : AggConfig) (st : AggState)
    (now : ℚ) (msg : PyVal) : Except String (Option PyVal × AggState) :=
  match o.appendErr with
  | some e => .error e
  | none =>
    let st1 : AggState := ⟨st.buffer ++ [msg], st.lastFlushTime, st.flushTaskPending⟩
    if cfg.maxSize ≤ st1.buffer.length then
      match o.flushErr with
      | some e => .error e
      | none => .ok (Agg.flush cfg.strategy st1 now)
    else if 0 < st1.lastFlushTime ∧ cfg.timeout ≤ now - st1.lastFlushTime then
      match o.flushErr with
      | some e => .error e
      | none => .ok (Agg.flush cfg.strategy st1 now)
    else if st1.lastFlushTime = 0 then
      match o.scheduleErr with
      | some e => .error e
      | none => .ok (none, ⟨st1.buffer, now, true⟩)
    else .ok (none, st1)

/-- `AggregateProcessor.process` with its `except Exception` clause:
any exception from the body is logged and `None` returned. -/
def Agg.processSafe (o : AggOracles) (cfg : AggConfig) (st : AggState)
    (now : ℚ) (msg : PyVal) : Except String (Option PyVal) :=
  match Agg.processExc o cfg st now msg with
  | .ok (r, _) => .ok r
  | .error _ => .ok none

/-- Value of a number-carrying result (`0` on anything else); used to
sum emitted `count` aggregates. -/
def pyNumVal : PyVal → ℚ
  | .vnum q => q
  | _ => 0

/-- Sum written the way the specification describes the `sum` strategy:
each item is coerced to a number independently and a non-coercible item
contributes exactly zero.  Stated from the spec's words, for comparison
with `applyStrategy "sum"`. -/
def claimedSumOfItems (buffer : List PyVal) : ℚ :=
  (buffer.map (fun x => (coerceForSum x).getD 0)).sum

/-- The aggregates a run is expected to emit: reference recursion used
to state what the `count` strategy produces.  Starting from `k`
buffered items, feeding one more message emits `k + 1` when the buffer
reaches `max_size` and otherwise just buffers. -/
def countEmissions (N k : ℕ) : ℕ → List ℕ
  | 0 => []
  | n + 1 =>
      if N ≤ k + 1 then (k + 1) :: countEmissions N 0 n
      else countEmissions N (k + 1) n

/-- Reference recursion for the buffer length left after a run. -/
def bufAfter (N k : ℕ) : ℕ → ℕ
  | 0 => k
  | n + 1 => if N ≤ k + 1 then bufAfter N 0 n else bufAfter N (k + 1) n

/-- All aggregates emitted when the given events are processed and the
processor is then closed: the non-`none` results of the `process`
calls, followed by the final flush performed by `close`. -/
def Agg.emittedAggregates (cfg : AggConfig) (st : AggState)
    (events : List (ℚ × PyVal)) (closeTime : ℚ) : List PyVal :=
  ((Agg.run cfg st events).1 ++
    [(Agg.close cfg (Agg.run cfg st events).2 closeTime).1]).filterMap id

/-! ## ExternalProcessor (`src/dialogchain/processors/external.py`) -/

/-- Outcome oracles for one `ExternalProcessor.process` invocation:
whether `json.dump` succeeds, whether the subprocess spawns, whether it
times out, its exit code and captured stdout, what `json.loads` makes
of the stripped output, and whether `os.unlink` succeeds. -/
structure ExtEnv where
  serializeOk : Bool
  spawnOk : Bool
  timesOut : Bool
  returncode : ℤ
  stdout : String
  jsonParsed : Option PyVal
  unlinkOk : Bool

/-- Result of an external invocation: structured data when the output
parses as JSON, otherwise the raw text. -/
inductive ExtResult where
  | value (v : PyVal)
  | text (s : String)

/-- The inner `try` of `ExternalProcessor.process`: spawn the command,
wait with timeout, check the exit code, and parse the output; every
failure is logged and yields the drop sentinel. -/
def ExternalProcessor.runCommand (env : ExtEnv) : Option ExtResult :=
  if ¬ env.spawnOk then none
  else if env.timesOut then none
  else if env.returncode ≠ 0 then none
  else
    if env.stdout.trim = "" then none
    else
      match env.jsonParsed with
      | some v => some (.value v)
      | none => some (.text env.stdout.trim)

/-- `ExternalProcessor.process`: the result, and whether the temporary
file created for the invocation still exists afterwards.  The file is
created by `NamedTemporaryFile(delete=False)` while the message is
serialized into it; when `json.dump` raises inside the `with` block,
control reaches the outer `except` without ever entering the inner
`try/finally`, so the file is never unlinked.  On every path through
the inner `try`, the `finally` unlinks it (a failing `os.unlink` is
only logged). -/
def ExternalProcessor.process (env : ExtEnv) : Option ExtResult × Bool :=
  if ¬ env.serializeOk then (none, true)
  else (ExternalProcessor.runCommand env, !env.unlinkOk)

/-! ## DialogChainEngine (`src/dialogchain/engine/core.py`) -/

/-- A route as the engine sees it during shutdown: its name and
whether its `stop` coroutine raises. -/
structure RouteM where
  name : String
  stopErr : Option String

/-- Engine state: the running flag and the loaded routes. -/
structure EngineState where
  running : Bool
  routes : List RouteM

/-- `DialogChainEngine.start` (the part before the idle wait): when
not already running, set the flag and start every route in list order.
Returns the new state and the names of the started routes in call
order. -/
def Engine.start (st : EngineState) : EngineState × List String :=
  if st.running then (st, [])
  else (⟨true, st.routes⟩, st.routes.map RouteM.name)

/-- `DialogChainEngine.stop`: returns immediately when not running;
otherwise clears the flag and calls `route.stop` on every route in
list order, logging each route's exception (third component, as
name/error pairs) instead of propagating it.  The second component
lists the `route.stop` calls in call order. -/
def Engine.stop (st : EngineState) :
    EngineState × List String × List (String × String) :=
  if st.running then
    (⟨false, st.routes⟩, st.routes.map RouteM.name,
     st.routes.filterMap (fun r => r.stopErr.map (fun e => (r.name, e))))
  else (st, [], [])

/-! ## URI handling (`src/dialogchain/engine/connector.py`,
`src/dialogchain/engine/utils.py`)

Strings are handled as explicit character lists so that the Python
`in`, `split`, `rsplit` and `urllib.parse` operations can be embedded
directly. -/

/-- Python `pat in s` on strings: some contiguous run of `s` equals
`pat`. -/
def strContains (pat : List Char) : List Char → Bool
  | [] => pat.isEmpty
  | c :: rest => pat.isPrefixOf (c :: rest) || strContains pat rest

/-- Python `s.split(c, 1)` when `c` occurs: the part before the first
occurrence and the part after it. -/
def splitFirst (c : Char) : List Char → Option (List Char × List Char)
  | [] => none
  | a :: rest =>
      if a = c then some ([], rest)
      else
        match splitFirst c rest with
        | some (l, r) => some (a :: l, r)
        | none => none

/-- Python `s.split(sep, 1)` for a multi-character separator. -/
def splitFirstSeq (pat : List Char) : List Char → Option (List Char × List Char)
  | [] => if pat.isEmpty then some ([], []) else none
  | a :: rest =>
      if pat.isPrefixOf (a :: rest) then some ([], (a :: rest).drop pat.length)
      else
        match splitFirstSeq pat rest with
        | some (l, r) => some (a :: l, r)
        | none => none

/-- Python `s.rsplit(c, 1)` (used for the `@` of a netloc). -/
def splitLast (c : Char) (s : List Char) : Option (List Char × List Char) :=
  match splitFirst c s.reverse with
  | some (l, r) => some (r.reverse, l.reverse)
  | none => none

/-- Characters allowed after the first one in a URL scheme. -/
def isSchemeChar (c : Char) : Bool :=
  c.isAlphanum || c = '+' || c = '-' || c = '.'

/-- The scheme recognition of `urllib.parse.urlsplit`: the prefix
before the first `:` is a scheme when it starts with a letter and
continues with scheme characters; it is returned lowercased. -/
def splitScheme (url : List Char) : List Char × List Char :=
  match splitFirst ':' url with
  | some (pre, post) =>
      match pre with
      | [] => ([], url)
      | c :: rest =>
          if c.isAlpha && rest.all isSchemeChar then
            ((c :: rest).map Char.toLower, post)
          else ([], url)
  | none => ([], url)

/-- Components of `urllib.parse.urlparse`. -/
structure UriParts where
  scheme : List Char
  netloc : List Char
  path : List Char
  params : List Char
  query : List Char
  fragment : List Char
deriving DecidableEq

/-- `urllib.parse.urlsplit` (no params split): the scheme; then — when
the rest starts with `//` — the netloc up to the next `/`, `?` or `#`;
then the fragment after the first `#`, the query after the first `?`,
and the remaining path. -/
def pyUrlsplit (url : List Char) : UriParts :=
  let sp := splitScheme url
  let netrest : List Char × List Char :=
    if List.isPrefixOf ['/', '/'] sp.2 then
      ((sp.2.drop 2).takeWhile (fun c => !(c = '/' || c = '?' || c = '#')),
       (sp.2.drop 2).dropWhile (fun c => !(c = '/' || c = '?' || c = '#')))
    else ([], sp.2)
  let fragsp : List Char × List Char :=
    match splitFirst '#' netrest.2 with
    | some (a, b) => (a, b)
    | none => (netrest.2, [])
  let querysp : List Char × List Char :=
    match splitFirst '?' fragsp.1 with
    | some (a, b) => (a, b)
    | none => (fragsp.1, [])
  ⟨sp.1, netrest.1, querysp.1, [], querysp.2, fragsp.2⟩

/-- `urllib.parse.urlparse`: `urlsplit`, plus splitting `;params` out
of the last path segment. -/
def pyUrlparse (url : List Char) : UriParts :=
  let u := pyUrlsplit url
  let pp : List Char × List Char :=
    match splitLast '/' u.path with
    | some (pre, seg) =>
        match splitFirst ';' seg with
        | some (a, b) => (pre ++ '/' :: a, b)
        | none => (u.path, [])
    | none =>
        match splitFirst ';' u.path with
        | some (a, b) => (a, b)
        | none => (u.path, [])
  ⟨u.scheme, u.netloc, pp.1, pp.2, u.query, u.fragment⟩

/-- A query-option value: a scalar for a key occurring once, a list
for repeated keys (the `parse_qs` collapse rule). -/
inductive QsVal where
  | one (v : List Char)
  | many (vs : List (List Char))
deriving DecidableEq

/-- Split a string at every occurrence of a character. -/
def splitAllOn (c : Char) : List Char → List (List Char)
  | [] => [[]]
  | a :: rest =>
      let r := splitAllOn c rest
      if a = c then [] :: r
      else
        match r with
        | [] => [[a]]
        | h :: t => (a :: h) :: t

/-- `urllib.parse.parse_qsl` with `keep_blank_values=True` (percent
decoding omitted; the engine URIs the claims concern carry none):
split on `&`, each field at its first `=`; a field without `=` keeps a
blank value; empty fields are dropped. -/
def parseQsl (query : List Char) : List (List Char × List Char) :=
  (splitAllOn '&' query).filterMap (fun field =>
    match splitFirst '=' field with
    | some (k, v) => some (k, v)
    | none => if field.isEmpty then none else some (field, []))

/-- First-occurrence deduplication of keys. -/
def dedupKeys : List (List Char) → List (List Char)
  | [] => []
  | k :: rest => k :: (dedupKeys rest).filter (fun x => x ≠ k)

/-- `urllib.parse.parse_qs` followed by the collapse in `_parse_uri`:
group pairs by key; a single occurrence collapses to its scalar. -/
def parseQs (query : List Char) : List (List Char × QsVal) :=
  let pairs := parseQsl query
  (dedupKeys (pairs.map Prod.fst)).map (fun k =>
    match (pairs.filter (fun p => p.1 = k)).map Prod.snd with
    | [v] => (k, QsVal.one v)
    | vs => (k, QsVal.many vs))

/-- The record `ConnectorManager._parse_uri` returns. -/
structure UriRecord where
  scheme : List Char
  netloc : List Char
  path : List Char
  params : List Char
  query : List Char
  fragment : List Char
  options : List (List Char × QsVal)
deriving DecidableEq

/-- Python dict assignment `d[k] = v`: replace or append. -/
def dictSet (k : List Char) (v : QsVal) :
    List (List Char × QsVal) → List (List Char × QsVal)
  | [] => [(k, v)]
  | (k0, v0) :: rest =>
      if k0 = k then (k, v) :: rest else (k0, v0) :: dictSet k v rest

/-- `ConnectorManager._parse_uri`: the simple `scheme:path` form (no
`://` but a `:`) is returned as an opaque record; anything else goes
through `urlparse`, query options are collected, and credentials found
before an `@` in the netloc are added to the options. -/
def ConnectorManager.parseUri (uri : List Char) : UriRecord :=
  if ¬ strContains [':', '/', '/'] uri ∧ strContains [':'] uri then
    match splitFirst ':' uri with
    | some (scheme, path) => ⟨scheme, [], path, [], [], [], []⟩
    | none => ⟨[], [], uri, [], [], [], []⟩
  else
    let p := pyUrlparse uri
    let options0 := parseQs p.query
    let options :=
      if strContains ['@'] p.netloc then
        match splitLast '@' p.netloc with
        | some (auth, _) =>
            if strContains [':'] auth then
              match splitFirst ':' auth with
              | some (u, pw) =>
                  dictSet ("password".toList) (QsVal.one pw)
                    (dictSet ("username".toList) (QsVal.one u) options0)
              | none => options0
            else options0
        | none => options0
      else options0
    ⟨p.scheme, p.netloc, p.path, p.params, p.query, p.fragment, options⟩

/-- `ConnectorManager._create_source_from_uri`: a URI in the simple
`scheme:path` form is first rewritten to `scheme://path`; the
(possibly rewritten) URI is parsed and handed to the source
constructor.  Returns the parsed record and the URI the constructor
receives. -/
def ConnectorManager.createSourceFromUri (uri : List Char) :
    UriRecord × List Char :=
  let uri2 :=
    if ¬ strContains [':', '/', '/'] uri ∧ strContains [':'] uri then
      match splitFirst ':' uri with
      | some (scheme, path) => scheme ++ ':' :: '/' :: '/' :: path
      | none => uri
    else uri
  (ConnectorManager.parseUri uri2, uri2)

/-- `engine/utils.py parse_uri`: scheme and path of a URI; the path of
a `scheme://...` URI keeps a leading `//`; a URI without `:` raises
`ValueError`. -/
def parse_uri (uri : List Char) : Except String (List Char × List Char) :=
  if strContains [':', '/', '/'] uri then
    match splitFirstSeq [':', '/', '/'] uri with
    | some (scheme, path) => .ok (scheme, '/' :: '/' :: path)
    | none => .error "Invalid URI format"
  else if strContains [':'] uri then
    match splitFirst ':' uri with
    | some (scheme, path) => .ok (scheme, path)
    | none => .error "Invalid URI format"
  else .error "Invalid URI format"

end DialogChain

namespace DialogChain

/-- C10.  When `min_confidence` is set, `FilterProcessor.process` drops
every message that is not a dictionary, whatever the threshold, the
condition, and the message's content. -/
theorem filter_drops_non_dict (evalCond : String → PyVal → Bool)
    (minc : ℚ) (cond : Option String) (message : PyVal)
    (h : message.isDict = false) :
    Filter.process evalCond ⟨some minc, cond⟩ message = none := by
  cases message <;> simp_all [Filter.process, Filter.checkConfidence, PyVal.isDict]

/-- Witness for C10 at the non-dict message `"hello"` with threshold
`1/2`. -/
theorem filter_drops_non_dict_witness :
    Filter.process (fun _ _ => true) ⟨some (1/2), none⟩ (.vstr "hello") = none :=
  filter_drops_non_dict (fun _ _ => true) (1/2) none (.vstr "hello") rfl

/-- C5, counterexample.  A message carrying the numeric confidence `-1`
is dropped by a filter with `min_confidence = 0` (because
`float(-1) >= 0` is false), so `min_confidence=0` does not pass every
message with a numeric confidence. -/
theorem filter_zero_threshold_counterexample :
    (pyFloat (.vnum (-1))).isSome = true ∧
    Filter.process (fun _ _ => true) ⟨some 0, none⟩
        (.vdict [("confidence", .vnum (-1))]) ≠
      some (.vdict [("confidence", .vnum (-1))]) := by
  constructor
  · rfl
  · have h : Filter.checkConfidence (.vdict [("confidence", .vnum (-1))]) 0 = false := by
      simp [Filter.checkConfidence, dictGet, pyFloat]
    simp [Filter.process, h]

/-- C5, amended: a filter with `min_confidence = 0` and no condition
passes every message whose `confidence` field is a number that is
non-negative. -/
theorem filter_zero_threshold_passes_nonneg (evalCond : String → PyVal → Bool)
    (fields : List (String × PyVal)) (q : ℚ)
    (hget : dictGet fields "confidence" = some (.vnum q)) (hq : 0 ≤ q) :
    Filter.process evalCond ⟨some 0, none⟩ (.vdict fields) =
      some (.vdict fields) := by
  have h : Filter.checkConfidence (.vdict fields) 0 = true := by
    simp [Filter.checkConfidence, hget, pyFloat, hq]
  simp [Filter.process, h]

/-- Witness for the amended C5 at `confidence = 1/2`. -/
theorem filter_zero_threshold_passes_nonneg_witness :
    Filter.process (fun _ _ => true) ⟨some 0, none⟩
        (.vdict [("confidence", .vnum (1/2))]) =
      some (.vdict [("confidence", .vnum (1/2))]) :=
  filter_zero_threshold_passes_nonneg (fun _ _ => true)
    [("confidence", .vnum (1/2))] (1/2) rfl (by norm_num)


/-- C1, counterexample.  `_flush` sets `_last_flush_time` to the flush
time (`time.time()`), not to `0`: flushing the buffer `[1.0]` at time
`5` leaves the last flush time at `5 ≠ 0`, and the next message
processed (at time `6`, well before the timeout) is not treated as a
first item — no new deferred flush is scheduled. -/
theorem aggregate_flush_reset_counterexample :
    (Agg.flush "collect" ⟨[.vnum 1], 3, true⟩ 5).2 = ⟨[], 5, false⟩ ∧
    (5 : ℚ) ≠ 0 ∧
    (Agg.process ⟨"collect", 60, 10⟩ ⟨[], 5, false⟩ 6 (.vnum 2)).2.flushTaskPending
      = false := by
  refine ⟨by simp [Agg.flush], by norm_num, ?_⟩
  have hproc : Agg.process ⟨"collect", 60, 10⟩ ⟨[], 5, false⟩ 6 (.vnum 2)
      = Agg.afterAppend ⟨"collect", 60, 10⟩ ⟨[.vnum 2], 5, false⟩ 6 := rfl
  rw [hproc]
  unfold Agg.afterAppend
  rw [if_neg, if_neg, if_neg]
  · show ¬ ((5 : ℚ) = 0)
    norm_num
  · show ¬ ((0 : ℚ) < 5 ∧ (60 : ℚ) ≤ 6 - 5)
    norm_num
  · show ¬ ((10 : ℕ) ≤ 1)
    norm_num

/-- C1, amended.  After a flush of a non-empty buffer the items list is
empty, the pending deferred flush is cancelled, and `_last_flush_time`
is set to the flush time (not `0`); consequently a message admitted
after the flush (before the timeout elapses and below `max_size`) is
*not* treated as a first item: it is only buffered and no new deferred
flush is scheduled. -/
theorem aggregate_flush_resets (strategy : String) (st : AggState) (now : ℚ)
    (h : st.buffer ≠ []) :
    (Agg.flush strategy st now).2 = ⟨[], now, false⟩ ∧
    ∀ (cfg : AggConfig) (msg : PyVal) (t : ℚ),
      0 < now → 1 < cfg.maxSize → t - now < cfg.timeout →
      Agg.process cfg ⟨[], now, false⟩ t msg = (none, ⟨[msg], now, false⟩) := by
  constructor
  · cases hb : st.buffer with
    | nil => exact absurd hb h
    | cons a l => simp [Agg.flush, hb]
  · intro cfg msg t h0 hmax ht
    have hproc : Agg.process cfg ⟨[], now, false⟩ t msg
        = Agg.afterAppend cfg ⟨[msg], now, false⟩ t := rfl
    rw [hproc]
    unfold Agg.afterAppend
    rw [if_neg, if_neg, if_neg]
    · show ¬ (now = 0)
      exact h0.ne'
    · show ¬ ((0 : ℚ) < now ∧ cfg.timeout ≤ t - now)
      rintro ⟨-, hc⟩
      linarith
    · show ¬ (cfg.maxSize ≤ ([msg] : List PyVal).length)
      simp only [List.length_singleton]
      omega

/-- Witness for the amended C1: flush `⟨[1.0], 3, pending⟩` at time
`5`, then process a message at time `6` with `max_size = 10`,
`timeout = 60`. -/
theorem aggregate_flush_resets_witness :
    (Agg.flush "collect" ⟨[.vnum 1], 3, true⟩ 5).2 = ⟨[], 5, false⟩ ∧
    Agg.process ⟨"collect", 60, 10⟩ ⟨[], 5, false⟩ 6 (.vnum 2)
      = (none, ⟨[.vnum 2], 5, false⟩) := by
  have h := aggregate_flush_resets "collect" ⟨[.vnum 1], 3, true⟩ 5 (by simp)
  exact ⟨h.1, h.2 ⟨"collect", 60, 10⟩ (.vnum 2) 6 (by norm_num) (by norm_num)
    (by norm_num)⟩

/-- If every buffered item coerces, the generator yields exactly the
pointwise coercions. -/
theorem coerceAll_eq_some (buffer : List PyVal)
    (h : ∀ x ∈ buffer, (coerceForSum x).isSome) :
    coerceAll buffer = some (buffer.map (fun x => (coerceForSum x).getD 0)) := by
  induction buffer with
  | nil => rfl
  | cons x rest ih =>
      have hx := h x (by simp)
      obtain ⟨q, hq⟩ := Option.isSome_iff_exists.mp hx
      have hrest := ih (fun y hy => h y (by simp [hy]))
      simp [coerceAll, hq, hrest]

/-- A single non-coercible item makes the whole generator raise. -/
theorem coerceAll_eq_none (buffer : List PyVal) (x : PyVal) (hx : x ∈ buffer)
    (hnone : coerceForSum x = none) : coerceAll buffer = none := by
  induction buffer with
  | nil => cases hx
  | cons y rest ih =>
      rcases List.mem_cons.mp hx with h | h
      · subst h
        simp [coerceAll, hnone]
      · unfold coerceAll
        cases hy : coerceForSum y with
        | none => rfl
        | some q => simp [ih h]

/-- C6, counterexample.  With `strategy = sum`, the buffer
`[5, "abc"]` aggregates to `0`, not to `5`: the non-coercible string
does not merely contribute zero, it zeroes the entire sum (the
`ValueError` raised by `float("abc")` aborts the whole generator and
the handler returns `0`). -/
theorem aggregate_sum_counterexample :
    applyStrategy "sum" [.vnum 5, .vstr "abc"] = .vnum 0 ∧
    claimedSumOfItems [.vnum 5, .vstr "abc"] = 5 ∧
    PyVal.vnum 0 ≠ PyVal.vnum 5 := by
  refine ⟨?_, ?_, ?_⟩
  · rfl
  · have habc : pyStrToRat "abc" = none := rfl
    norm_num [claimedSumOfItems, coerceForSum, habc]
  · intro h
    injection h with h
    norm_num at h

/-- C6, amended.  Flushing a non-empty buffer with `strategy = sum`
yields the sum of the coerced items — every item that is not an
`int`/`float`/`str`/`bool` contributing exactly zero — *provided every
string item parses as a number*; if any item fails to coerce (a
non-numeric string), the entire result is `0`. -/
theorem aggregate_sum_characterization (buffer : List PyVal)
    (h : buffer ≠ []) :
    ((∀ x ∈ buffer, (coerceForSum x).isSome) →
      applyStrategy "sum" buffer = .vnum (claimedSumOfItems buffer)) ∧
    ((∃ x ∈ buffer, coerceForSum x = none) →
      applyStrategy "sum" buffer = .vnum 0) := by
  have hne : buffer.isEmpty = false := by
    cases buffer with
    | nil => exact absurd rfl h
    | cons a l => rfl
  constructor
  · intro hall
    unfold applyStrategy
    rw [coerceAll_eq_some buffer hall]
    simp [hne, claimedSumOfItems]
  · rintro ⟨x, hx, hnone⟩
    unfold applyStrategy
    rw [coerceAll_eq_none buffer x hx hnone]
    simp [hne]

/-- Witness for the amended C6 on the buffers `[2, True, None]`
(all coercible: `2 + 1 + 0 = 3`) and `[5, "abc"]` (one non-coercible
string: result `0`). -/
theorem aggregate_sum_characterization_witness :
    applyStrategy "sum" [.vnum 2, .vbool true, .vnone] = .vnum 3 ∧
    applyStrategy "sum" [.vnum 5, .vstr "abc"] = .vnum 0 := by
  constructor
  · have h := (aggregate_sum_characterization
      [.vnum 2, .vbool true, .vnone] (by simp)).1 (by decide)
    rw [h]
    have hsum : claimedSumOfItems [.vnum 2, .vbool true, .vnone] = 3 := by
      norm_num [claimedSumOfItems, coerceForSum]
    rw [hsum]
  · exact (aggregate_sum_characterization [.vnum 5, .vstr "abc"] (by simp)).2
      ⟨.vstr "abc", by simp, by rfl⟩

/-- C9.  `AggregateProcessor.process` never raises to its caller:
whatever exception the appending, flush-scheduling or flushing step
raises, the surrounding `except Exception` catches it and the drop
sentinel `None` is returned. -/
theorem aggregate_process_never_raises (o : AggOracles) (cfg : AggConfig)
    (st : AggState) (now : ℚ) (msg : PyVal) :
    (∃ r, Agg.processSafe o cfg st now msg = .ok r) ∧
    (∀ e, Agg.processExc o cfg st now msg = .error e →
      Agg.processSafe o cfg st now msg = .ok none) := by
  unfold Agg.processSafe
  constructor
  · cases h : Agg.processExc o cfg st now msg with
    | ok r => exact ⟨r.1, by simp [h]⟩
    | error e => exact ⟨none, by simp [h]⟩
  · intro e he
    simp [he]

/-- Witness for C9: a failure injected at the appending step still
yields the drop sentinel. -/
theorem aggregate_process_never_raises_witness :
    Agg.processSafe ⟨some "boom", none, none⟩
      ⟨"collect", 60, 10⟩ ⟨[], 0, false⟩ 1 .vnone = .ok none :=
  (aggregate_process_never_raises ⟨some "boom", none, none⟩
    ⟨"collect", 60, 10⟩ ⟨[], 0, false⟩ 1 .vnone).2 "boom" rfl

/-- Evaluation of the `count` strategy on a non-empty buffer. -/
theorem applyStrategy_count (buffer : List PyVal) (h : buffer ≠ []) :
    applyStrategy "count" buffer = .vnum (buffer.length : ℚ) := by
  have hne : buffer.isEmpty = false := by
    cases buffer with
    | nil => exact absurd rfl h
    | cons a l => rfl
  unfold applyStrategy
  simp [hne]

/-- Size-triggered branch of the decision chain: the buffer reached
`max_size` and is flushed. -/
theorem afterAppend_sizeFlush (cfg : AggConfig) (buf : List PyVal) (lf : ℚ)
    (p : Bool) (now : ℚ) (hge : cfg.maxSize ≤ buf.length) (hne : buf ≠ []) :
    Agg.afterAppend cfg ⟨buf, lf, p⟩ now
      = (some (applyStrategy cfg.strategy buf), ⟨[], now, false⟩) := by
  have hb : buf.isEmpty = false := by
    cases buf with
    | nil => exact absurd rfl hne
    | cons a l => rfl
  unfold Agg.afterAppend Agg.flush
  rw [if_pos hge, if_neg]
  simp [hb]

/-- No-flush branches of the decision chain: buffer below `max_size`
and timeout not elapsed. -/
theorem afterAppend_buffers (cfg : AggConfig) (buf : List PyVal) (lf : ℚ)
    (p : Bool) (now : ℚ) (hlt : buf.length < cfg.maxSize)
    (hto : ¬(0 < lf ∧ cfg.timeout ≤ now - lf)) :
    Agg.afterAppend cfg ⟨buf, lf, p⟩ now
      = if lf = 0 then (none, ⟨buf, now, true⟩) else (none, ⟨buf, lf, p⟩) := by
  unfold Agg.afterAppend
  rw [if_neg (show ¬ cfg.maxSize ≤ buf.length by omega), if_neg hto]

theorem countEmissions_length (N : ℕ) (hN : 0 < N) :
    ∀ (n k : ℕ), k < N → (countEmissions N k n).length = (k + n) / N
  | 0, k, hk => by simp [countEmissions, Nat.div_eq_of_lt hk]
  | n + 1, k, hk => by
      unfold countEmissions
      by_cases hge : N ≤ k + 1
      · rw [if_pos hge]
        have ih := countEmissions_length N hN n 0 hN
        simp only [List.length_cons, ih, Nat.zero_add]
        have h2 : k + (n + 1) = n + N := by omega
        rw [h2, Nat.add_div_right _ hN]
      · rw [if_neg hge]
        have ih := countEmissions_length N hN n (k + 1) (by omega)
        rw [ih]
        have h2 : k + 1 + n = k + (n + 1) := by omega
        rw [h2]

theorem countEmissions_sum (N : ℕ) (hN : 0 < N) :
    ∀ (n k : ℕ), k < N → (countEmissions N k n).sum = N * ((k + n) / N)
  | 0, k, hk => by simp [countEmissions, Nat.div_eq_of_lt hk]
  | n + 1, k, hk => by
      unfold countEmissions
      by_cases hge : N ≤ k + 1
      · have hk1 : k + 1 = N := by omega
        rw [if_pos hge]
        have ih := countEmissions_sum N hN n 0 hN
        simp only [List.sum_cons, ih, Nat.zero_add]
        have h2 : k + (n + 1) = n + N := by omega
        rw [h2, Nat.add_div_right _ hN, hk1]
        ring
      · rw [if_neg hge]
        have ih := countEmissions_sum N hN n (k + 1) (by omega)
        rw [ih]
        have h2 : k + 1 + n = k + (n + 1) := by omega
        rw [h2]

theorem bufAfter_mod (N : ℕ) (hN : 0 < N) :
    ∀ (n k : ℕ), k < N → bufAfter N k n = (k + n) % N
  | 0, k, hk => by simp [bufAfter, Nat.mod_eq_of_lt hk]
  | n + 1, k, hk => by
      unfold bufAfter
      by_cases hge : N ≤ k + 1
      · rw [if_pos hge]
        have ih := bufAfter_mod N hN n 0 hN
        rw [ih]
        simp only [Nat.zero_add]
        have h2 : k + (n + 1) = n + N := by omega
        rw [h2, Nat.add_mod_right]
      · rw [if_neg hge]
        have ih := bufAfter_mod N hN n (k + 1) (by omega)
        rw [ih]
        congr 1
        omega

/-- Characterization of a timeout-free `count` run: the emitted
aggregates and the final buffer length follow the reference
recursions. -/
theorem run_count_spec (cfg : AggConfig) (hs : cfg.strategy = "count") :
    ∀ (events : List (ℚ × PyVal)) (st : AggState),
      st.buffer.length < cfg.maxSize →
      Agg.runTimeoutFree cfg st events = true →
      (Agg.run cfg st events).1.filterMap id
          = (countEmissions cfg.maxSize st.buffer.length events.length).map
              (fun j : ℕ => PyVal.vnum (j : ℚ)) ∧
      (Agg.run cfg st events).2.buffer.length
          = bufAfter cfg.maxSize st.buffer.length events.length
  | [], st, hk, _ => by simp [Agg.run, countEmissions, bufAfter]
  | (t, m) :: rest, st, hk, hfree => by
      rw [Agg.runTimeoutFree, Bool.and_eq_true] at hfree
      obtain ⟨hstep, hrest⟩ := hfree
      have hlen : (st.buffer ++ [m]).length = st.buffer.length + 1 := by simp
      by_cases hge : cfg.maxSize ≤ st.buffer.length + 1
      · -- size-triggered flush
        have hne : st.buffer ++ [m] ≠ [] := by simp
        have hp : Agg.process cfg st t m
            = (some (.vnum ((st.buffer.length + 1 : ℕ) : ℚ)), ⟨[], t, false⟩) := by
          rw [show Agg.process cfg st t m = Agg.afterAppend cfg
              ⟨st.buffer ++ [m], st.lastFlushTime, st.flushTaskPending⟩ t from rfl,
            afterAppend_sizeFlush cfg _ _ _ t (by omega) hne, hs,
            applyStrategy_count _ hne, hlen]
        rw [hp] at hrest
        have ih := run_count_spec cfg hs rest ⟨[], t, false⟩
          (show (0 : ℕ) < cfg.maxSize by omega) hrest
        simp only [Agg.run, hp, List.length_cons, countEmissions, bufAfter,
          if_pos hge, List.filterMap_cons, id, List.map_cons]
        refine ⟨?_, ?_⟩
        · rw [ih.1]
          simp
        · rw [ih.2]
          simp
      · -- buffered (no flush)
        have hstep' : Agg.stepFiresTimeout cfg st t = false := by
          cases hx : Agg.stepFiresTimeout cfg st t with
          | false => rfl
          | true => rw [hx] at hstep; cases hstep
        have hto : ¬(0 < st.lastFlushTime ∧ cfg.timeout ≤ t - st.lastFlushTime) := by
          rintro ⟨hc1, hc2⟩
          have : Agg.stepFiresTimeout cfg st t = true := by
            unfold Agg.stepFiresTimeout
            rw [decide_eq_true (show st.buffer.length + 1 < cfg.maxSize by omega),
              decide_eq_true hc1, decide_eq_true hc2]
            rfl
          rw [this] at hstep'
          cases hstep'
        have hbase := afterAppend_buffers cfg (st.buffer ++ [m]) st.lastFlushTime
          st.flushTaskPending t (by omega) hto
        by_cases hlf : st.lastFlushTime = 0
        · have hp : Agg.process cfg st t m
              = (none, ⟨st.buffer ++ [m], t, true⟩) := by
            rw [show Agg.process cfg st t m = Agg.afterAppend cfg
                ⟨st.buffer ++ [m], st.lastFlushTime, st.flushTaskPending⟩ t from rfl,
              hbase, if_pos hlf]
          rw [hp] at hrest
          have ih := run_count_spec cfg hs rest ⟨st.buffer ++ [m], t, true⟩
            (show (st.buffer ++ [m]).length < cfg.maxSize by omega) hrest
          simp only [Agg.run, hp, List.length_cons, countEmissions, bufAfter,
            if_neg hge, List.filterMap_cons, id]
          refine ⟨?_, ?_⟩
          · rw [ih.1]
            simp [hlen]
          · rw [ih.2]
            simp [hlen]
        · have hp : Agg.process cfg st t m
              = (none, ⟨st.buffer ++ [m], st.lastFlushTime, st.flushTaskPending⟩) := by
            rw [show Agg.process cfg st t m = Agg.afterAppend cfg
                ⟨st.buffer ++ [m], st.lastFlushTime, st.flushTaskPending⟩ t from rfl,
              hbase, if_neg hlf]
          rw [hp] at hrest
          have ih := run_count_spec cfg hs rest
            ⟨st.buffer ++ [m], st.lastFlushTime, st.flushTaskPending⟩
            (show (st.buffer ++ [m]).length < cfg.maxSize by omega) hrest
          simp only [Agg.run, hp, List.length_cons, countEmissions, bufAfter,
            if_neg hge, List.filterMap_cons, id]
          refine ⟨?_, ?_⟩
          · rw [ih.1]
            simp [hlen]
          · rw [ih.2]
            simp [hlen]

/-- `close` on an empty buffer emits nothing. -/
theorem close_none (cfg : AggConfig) (st : AggState) (tc : ℚ)
    (h : st.buffer = []) : (Agg.close cfg st tc).1 = none := by
  unfold Agg.close
  rw [if_pos (by simp [h])]

/-- `close` on a non-empty buffer of a `count` processor emits the
buffer's cardinality. -/
theorem close_count (cfg : AggConfig) (st : AggState) (tc : ℚ)
    (hs : cfg.strategy = "count") (hne : st.buffer ≠ []) :
    (Agg.close cfg st tc).1 = some (.vnum (st.buffer.length : ℚ)) := by
  have hb : st.buffer.isEmpty = false := by
    rw [List.isEmpty_eq_false_iff_exists_mem]
    cases hbuf : st.buffer with
    | nil => exact absurd hbuf hne
    | cons a l => exact ⟨a, by simp⟩
  unfold Agg.close Agg.flush
  rw [if_neg (by simp [hb]), if_neg (by simp [hb])]
  rw [hs, applyStrategy_count _ hne]

/-- Splitting a ceiling division by cases on the remainder. -/
theorem ceil_div_split (N total : ℕ) (hN : 0 < N) :
    (total + N - 1) / N = total / N + (if total % N = 0 then 0 else 1) := by
  have hdm := Nat.div_add_mod total N
  have hmlt : total % N < N := Nat.mod_lt _ hN
  by_cases hr : total % N = 0
  · rw [if_pos hr]
    have h1 : total + N - 1 = N * (total / N) + (N - 1) := by omega
    rw [h1, Nat.mul_add_div hN, Nat.div_eq_of_lt (show N - 1 < N by omega)]
  · rw [if_neg hr]
    have hexp : N * (total / N + 1) = N * (total / N) + N := by ring
    have h1 : total + N - 1 = N * (total / N + 1) + (total % N - 1) := by
      rw [hexp]; omega
    rw [h1, Nat.mul_add_div hN,
      Nat.div_eq_of_lt (show total % N - 1 < N by omega)]

/-- Casting a list sum of naturals into `ℚ`. -/
theorem listSumCast (l : List ℕ) :
    ((l.map (fun j : ℕ => (j : ℚ))).sum) = ((l.sum : ℕ) : ℚ) := by
  induction l with
  | nil => simp
  | cons a tl ih => simp only [List.map_cons, List.sum_cons, ih, Nat.cast_add]

/-- C2.  A `count` aggregator with positive `max_size = N`, fed
`total ≥ 1` messages with no timeout flush firing in between and then
closed, emits exactly `⌈total / N⌉` aggregates, and the emitted counts
sum to `total`. -/
theorem aggregate_count_ceil (cfg : AggConfig) (events : List (ℚ × PyVal))
    (tc : ℚ) (hs : cfg.strategy = "count") (hN : 0 < cfg.maxSize)
    (htot : 1 ≤ events.length)
    (hfree : Agg.runTimeoutFree cfg ⟨[], 0, false⟩ events = true) :
    (Agg.emittedAggregates cfg ⟨[], 0, false⟩ events tc).length
        = (events.length + cfg.maxSize - 1) / cfg.maxSize ∧
    ((Agg.emittedAggregates cfg ⟨[], 0, false⟩ events tc).map pyNumVal).sum
        = (events.length : ℚ) := by
  obtain ⟨h1, h2⟩ := run_count_spec cfg hs events ⟨[], 0, false⟩ hN hfree
  simp only [List.length_nil] at h1 h2
  have hbuflen : (Agg.run cfg ⟨[], 0, false⟩ events).2.buffer.length
      = events.length % cfg.maxSize := by
    rw [h2]
    have := bufAfter_mod cfg.maxSize hN events.length 0 hN
    simpa using this
  unfold Agg.emittedAggregates
  rw [List.filterMap_append, h1]
  by_cases hr : events.length % cfg.maxSize = 0
  · have hempty : (Agg.run cfg ⟨[], 0, false⟩ events).2.buffer = [] := by
      rw [← List.length_eq_zero]
      rw [hbuflen, hr]
    rw [close_none cfg _ tc hempty]
    simp only [List.filterMap_cons, List.filterMap_nil, id, List.append_nil]
    constructor
    · rw [List.length_map, ceil_div_split cfg.maxSize events.length hN, if_pos hr]
      have := countEmissions_length cfg.maxSize hN events.length 0 hN
      simpa using this
    · rw [List.map_map]
      have hcomp : (pyNumVal ∘ fun j : ℕ => PyVal.vnum (j : ℚ))
          = (fun j : ℕ => (j : ℚ)) := rfl
      rw [hcomp, listSumCast]
      have hsum := countEmissions_sum cfg.maxSize hN events.length 0 hN
      simp only [Nat.zero_add] at hsum
      rw [hsum]
      have hdm := Nat.div_add_mod events.length cfg.maxSize
      have : cfg.maxSize * (events.length / cfg.maxSize) = events.length := by omega
      rw [this]
  · have hne2 : (Agg.run cfg ⟨[], 0, false⟩ events).2.buffer ≠ [] := by
      intro hnil
      rw [hnil] at hbuflen
      simp at hbuflen
      exact hr hbuflen.symm
    rw [close_count cfg _ tc hs hne2, hbuflen]
    simp only [List.filterMap_cons, List.filterMap_nil, id]
    constructor
    · rw [List.length_append, List.length_map,
        ceil_div_split cfg.maxSize events.length hN, if_neg hr]
      have := countEmissions_length cfg.maxSize hN events.length 0 hN
      simp only [Nat.zero_add] at this
      rw [this]
      simp
    · rw [List.map_append, List.map_map]
      have hcomp : (pyNumVal ∘ fun j : ℕ => PyVal.vnum (j : ℚ))
          = (fun j : ℕ => (j : ℚ)) := rfl
      rw [hcomp, List.sum_append, listSumCast]
      have hsum := countEmissions_sum cfg.maxSize hN events.length 0 hN
      simp only [Nat.zero_add] at hsum
      rw [hsum]
      simp only [List.map_cons, List.map_nil, List.sum_cons, List.sum_nil, pyNumVal]
      have hdm := Nat.div_add_mod events.length cfg.maxSize
      rw [add_zero, ← Nat.cast_add, hdm]

/-- Each `process` call either keeps the stored flush time or stamps
the current time. -/
theorem process_lastFlush_cases (cfg : AggConfig) (st : AggState) (now : ℚ)
    (msg : PyVal) :
    (Agg.process cfg st now msg).2.lastFlushTime = st.lastFlushTime ∨
    (Agg.process cfg st now msg).2.lastFlushTime = now := by
  rw [show Agg.process cfg st now msg = Agg.afterAppend cfg
      ⟨st.buffer ++ [msg], st.lastFlushTime, st.flushTaskPending⟩ now from rfl]
  unfold Agg.afterAppend Agg.flush
  split
  · split
    · left; rfl
    · right; rfl
  · split
    · split
      · left; rfl
      · right; rfl
    · split
      · right; rfl
      · left; rfl

/-- A run whose messages all arrive at one instant `t` (with a positive
timeout) never takes the timeout-flush branch. -/
theorem runTimeoutFree_const (cfg : AggConfig) (hT : 0 < cfg.timeout) (t : ℚ) :
    ∀ (msgs : List PyVal) (st : AggState),
      st.lastFlushTime = 0 ∨ st.lastFlushTime = t →
      Agg.runTimeoutFree cfg st (msgs.map (fun m => (t, m))) = true
  | [], _, _ => rfl
  | m :: msgs, st, hlf => by
      simp only [List.map_cons, Agg.runTimeoutFree, Bool.and_eq_true]
      constructor
      · have hstep : Agg.stepFiresTimeout cfg st t = false := by
          unfold Agg.stepFiresTimeout
          rcases hlf with h | h
          · rw [h, decide_eq_false (lt_irrefl (0 : ℚ))]
            simp
          · rw [h, decide_eq_false (show ¬ cfg.timeout ≤ t - t by
              rw [sub_self]; exact not_le.mpr hT)]
            simp
        rw [hstep]
        rfl
      · apply runTimeoutFree_const cfg hT t msgs
        rcases process_lastFlush_cases cfg st t m with h | h
        · rw [h]; exact hlf
        · right; exact h

/-- Witness for C2: `max_size = 2`, three messages at time `7`,
closed at time `9`: two aggregates, counts summing to `3`. -/
theorem aggregate_count_ceil_witness :
    (Agg.emittedAggregates ⟨"count", 60, 2⟩ ⟨[], 0, false⟩
        ([PyVal.vnone, PyVal.vnone, PyVal.vnone].map (fun m => ((7 : ℚ), m)))
        9).length = 2 ∧
    ((Agg.emittedAggregates ⟨"count", 60, 2⟩ ⟨[], 0, false⟩
        ([PyVal.vnone, PyVal.vnone, PyVal.vnone].map (fun m => ((7 : ℚ), m)))
        9).map pyNumVal).sum = 3 := by
  have h := aggregate_count_ceil ⟨"count", 60, 2⟩
      ([PyVal.vnone, PyVal.vnone, PyVal.vnone].map (fun m => ((7 : ℚ), m))) 9
      rfl (by decide) (by decide)
      (runTimeoutFree_const ⟨"count", 60, 2⟩ (by norm_num) 7
        [PyVal.vnone, PyVal.vnone, PyVal.vnone] ⟨[], 0, false⟩ (Or.inl rfl))
  refine ⟨?_, ?_⟩
  · rw [h.1]
    rfl
  · rw [h.2]
    norm_num

/-- C3, counterexample.  When serializing the message fails
(`json.dump` raises on an unserializable payload), the temporary file
already created by `NamedTemporaryFile(delete=False)` is never
unlinked: it still exists after `process` returns. -/
theorem external_tempfile_counterexample :
    (ExternalProcessor.process ⟨false, true, false, 0, "", none, true⟩).2 = true :=
  rfl

/-- C3, amended.  After every invocation in which the message
serializes successfully (and `os.unlink` itself does not fail), the
temporary file no longer exists, whatever the command outcome — spawn
failure, timeout, non-zero exit, empty or parsed output; when
serialization fails, the file is leaked. -/
theorem external_tempfile_cleanup (env : ExtEnv)
    (hser : env.serializeOk = true) (hunlink : env.unlinkOk = true) :
    (ExternalProcessor.process env).2 = false := by
  unfold ExternalProcessor.process
  rw [if_neg (by simp [hser])]
  simp [hunlink]

/-- Witness for the amended C3: a timed-out invocation leaves no file
behind. -/
theorem external_tempfile_cleanup_witness :
    (ExternalProcessor.process ⟨true, true, true, 0, "", none, true⟩).2 = false :=
  external_tempfile_cleanup ⟨true, true, true, 0, "", none, true⟩ rfl rfl

/-- C4, counterexample.  With two routes `A`, `B`, `start` starts them
in the order `[A, B]` and `stop` also stops them in the order
`[A, B]` — not in reverse start order `[B, A]`. -/
theorem engine_stop_order_counterexample :
    (Engine.start ⟨false, [⟨"A", none⟩, ⟨"B", none⟩]⟩).2 = ["A", "B"] ∧
    (Engine.stop ⟨true, [⟨"A", none⟩, ⟨"B", none⟩]⟩).2.1 = ["A", "B"] ∧
    (["A", "B"] : List String) ≠ ["B", "A"] := by
  refine ⟨rfl, rfl, by decide⟩

/-- C4, amended.  `stop` always leaves the running flag false and is
idempotent — a second call on the stopped engine changes nothing and
calls no route.  When the engine was running, it calls `route.stop` on
every route in (forward) start order — the same order `start` started
them in, not the reverse — and collects each route's exception into
the log instead of propagating it. -/
theorem engine_stop_idempotent (st : EngineState) :
    (Engine.stop st).1.running = false ∧
    Engine.stop (Engine.stop st).1 = ((Engine.stop st).1, [], []) ∧
    (st.running = true →
      (Engine.stop st).2.1 = (Engine.start ⟨false, st.routes⟩).2 ∧
      (Engine.stop st).2.1 = st.routes.map RouteM.name ∧
      (Engine.stop st).2.2
        = st.routes.filterMap (fun r => r.stopErr.map (fun e => (r.name, e)))) := by
  cases hr : st.running with
  | false => simp [Engine.stop, hr]
  | true => simp [Engine.stop, Engine.start, hr]

/-- Witness for the amended C4: a running engine with routes `A`
(whose stop raises) and `B` stops both, in order, and logs the error
from `A`. -/
theorem engine_stop_idempotent_witness :
    (Engine.stop ⟨true, [⟨"A", some "boom"⟩, ⟨"B", none⟩]⟩).2.1 = ["A", "B"] ∧
    (Engine.stop ⟨true, [⟨"A", some "boom"⟩, ⟨"B", none⟩]⟩).2.2
      = [("A", "boom")] := by
  have h := (engine_stop_idempotent ⟨true, [⟨"A", some "boom"⟩, ⟨"B", none⟩]⟩).2.2 rfl
  refine ⟨?_, ?_⟩
  · rw [h.2.1]
    rfl
  · rw [h.2.2]
    rfl

/-- A pattern starting with a character absent from a string never
occurs in it. -/
theorem strContains_false (p0 : Char) (prest : List Char) (s : List Char)
    (h : ∀ x ∈ s, x ≠ p0) : strContains (p0 :: prest) s = false := by
  induction s with
  | nil => rfl
  | cons a rest ih =>
      have ha : (p0 == a) = false := by
        simp only [beq_eq_false_iff_ne, ne_eq]
        exact fun hh => (h a (by simp)) hh.symm
      simp only [strContains, List.isPrefixOf, ha, Bool.false_and, Bool.false_or]
      exact ih (fun y hy => h y (by simp [hy]))

/-- `scheme ++ ":" ++ path` contains a colon. -/
theorem strContains_colon (scheme path : List Char) :
    strContains [':'] (scheme ++ ':' :: path) = true := by
  induction scheme with
  | nil => simp [strContains, List.isPrefixOf]
  | cons a as ih =>
      simp only [List.cons_append, strContains, List.append_eq, ih, Bool.or_true]

/-- A colon-free scheme and a colon- and slash-free path make a
`://`-free simple-form URI. -/
theorem strContains_css_false (scheme path : List Char)
    (hs : ∀ x ∈ scheme, x ≠ ':')
    (hpc : ∀ x ∈ path, x ≠ ':') (hps : ∀ x ∈ path, x ≠ '/') :
    strContains [':', '/', '/'] (scheme ++ ':' :: path) = false := by
  induction scheme with
  | nil =>
      have h2 : List.isPrefixOf ['/', '/'] path = false := by
        cases path with
        | nil => rfl
        | cons y ys =>
            have hy : ('/' == y) = false := by
              simp only [beq_eq_false_iff_ne, ne_eq]
              exact fun hh => (hps y (by simp)) hh.symm
            simp [List.isPrefixOf, hy]
      have h3 := strContains_false ':' ['/', '/'] path hpc
      simp [strContains, List.isPrefixOf, h2, h3]
  | cons a as ih =>
      have ha : (':' == a) = false := by
        simp only [beq_eq_false_iff_ne, ne_eq]
        exact fun hh => (hs a (by simp)) hh.symm
      simp only [List.cons_append, strContains, List.isPrefixOf, List.append_eq,
        ha, Bool.false_and, Bool.false_or]
      exact ih (fun y hy => hs y (by simp [hy]))

/-- The rewritten URI `scheme ++ "://" ++ path` does contain `://`. -/
theorem strContains_css_rewritten (scheme path : List Char) :
    strContains [':', '/', '/'] (scheme ++ ':' :: '/' :: '/' :: path) = true := by
  induction scheme with
  | nil => simp [strContains, List.isPrefixOf]
  | cons a as ih =>
      simp only [List.cons_append, strContains, List.append_eq, ih, Bool.or_true]

/-- Splitting at the first occurrence of a separator absent from the
prefix. -/
theorem splitFirst_append (c : Char) (a b : List Char)
    (ha : ∀ x ∈ a, x ≠ c) : splitFirst c (a ++ c :: b) = some (a, b) := by
  induction a with
  | nil => simp [splitFirst]
  | cons x xs ih =>
      have hx : ¬ x = c := ha x (by simp)
      simp only [List.cons_append, splitFirst, List.append_eq, if_neg hx,
        ih (fun y hy => ha y (by simp [hy]))]

/-- Lowercasing is the identity on already-lowercase characters. -/
theorem map_toLower_self (l : List Char) (h : ∀ c ∈ l, c.toLower = c) :
    l.map Char.toLower = l := by
  induction l with
  | nil => rfl
  | cons a t ih =>
      simp only [List.map_cons, h a (by simp),
        ih (fun y hy => h y (by simp [hy]))]

/-- `takeWhile` keeps a list all of whose elements satisfy the
predicate. -/
theorem takeWhile_all (p : Char → Bool) (l : List Char)
    (h : ∀ x ∈ l, p x = true) : l.takeWhile p = l := by
  induction l with
  | nil => rfl
  | cons a t ih =>
      simp [List.takeWhile_cons, h a (by simp),
        ih (fun y hy => h y (by simp [hy]))]

/-- `dropWhile` drops a list all of whose elements satisfy the
predicate. -/
theorem dropWhile_all (p : Char → Bool) (l : List Char)
    (h : ∀ x ∈ l, p x = true) : l.dropWhile p = [] := by
  induction l with
  | nil => rfl
  | cons a t ih =>
      simp [List.dropWhile_cons, h a (by simp),
        ih (fun y hy => h y (by simp [hy]))]

/-- `urlsplit`'s scheme recognition on a well-formed lowercase
scheme. -/
theorem splitScheme_eq (scheme rest : List Char) (hne : scheme ≠ [])
    (halpha : ∀ c ∈ scheme, c.isAlpha = true ∧ c.toLower = c) :
    splitScheme (scheme ++ ':' :: rest) = (scheme, rest) := by
  have hnc : ∀ x ∈ scheme, x ≠ ':' := by
    intro x hx hcon
    have hA := (halpha x hx).1
    rw [hcon] at hA
    exact absurd hA (by decide)
  cases scheme with
  | nil => exact absurd rfl hne
  | cons c cs =>
      have hc := (halpha c (by simp)).1
      have hcs : cs.all isSchemeChar = true := by
        rw [List.all_eq_true]
        intro x hx
        have hA := (halpha x (by simp [hx])).1
        simp [isSchemeChar, Char.isAlphanum, hA]
      unfold splitScheme
      rw [splitFirst_append ':' (c :: cs) rest hnc]
      show (if c.isAlpha && cs.all isSchemeChar then
            ((c :: cs).map Char.toLower, rest)
          else ([], (c :: cs) ++ ':' :: rest)) = (c :: cs, rest)
      rw [if_pos (by rw [hc, hcs]; rfl)]
      rw [map_toLower_self (c :: cs) (fun y hy => (halpha y hy).2)]

/-- `urlsplit` on the rewritten simple form: the opaque path becomes
the netloc and everything else is empty. -/
theorem pyUrlsplit_simple_netloc (scheme path : List Char) (hne : scheme ≠ [])
    (halpha : ∀ c ∈ scheme, c.isAlpha = true ∧ c.toLower = c)
    (hpath : ∀ c ∈ path, c ≠ '/' ∧ c ≠ '?' ∧ c ≠ '#') :
    pyUrlsplit (scheme ++ ':' :: '/' :: '/' :: path)
      = ⟨scheme, path, [], [], [], []⟩ := by
  have hpred : ∀ x ∈ path, (!(x = '/' || x = '?' || x = '#' : Bool)) = true := by
    intro x hx
    obtain ⟨h1, h2, h3⟩ := hpath x hx
    simp [h1, h2, h3]
  unfold pyUrlsplit
  rw [splitScheme_eq scheme ('/' :: '/' :: path) hne halpha]
  simp only [List.isPrefixOf, List.drop_succ_cons, List.drop_zero,
    takeWhile_all _ path hpred, dropWhile_all _ path hpred, splitFirst]
  rfl

/-- `urlparse` on the rewritten simple form. -/
theorem pyUrlparse_simple_netloc (scheme path : List Char) (hne : scheme ≠ [])
    (halpha : ∀ c ∈ scheme, c.isAlpha = true ∧ c.toLower = c)
    (hpath : ∀ c ∈ path, c ≠ '/' ∧ c ≠ '?' ∧ c ≠ '#') :
    pyUrlparse (scheme ++ ':' :: '/' :: '/' :: path)
      = ⟨scheme, path, [], [], [], []⟩ := by
  unfold pyUrlparse
  rw [pyUrlsplit_simple_netloc scheme path hne halpha hpath]
  rfl

/-- `_parse_uri` on the rewritten simple form: the scheme survives but
the opaque path sits in the netloc, the path is empty, and there are
no options. -/
theorem parseUri_rewritten (scheme path : List Char) (hne : scheme ≠ [])
    (halpha : ∀ c ∈ scheme, c.isAlpha = true ∧ c.toLower = c)
    (hpath : ∀ c ∈ path, c ≠ ':' ∧ c ≠ '/' ∧ c ≠ '?' ∧ c ≠ '#' ∧ c ≠ '@') :
    ConnectorManager.parseUri (scheme ++ ':' :: '/' :: '/' :: path)
      = ⟨scheme, path, [], [], [], [], []⟩ := by
  unfold ConnectorManager.parseUri
  rw [if_neg (by
    rintro ⟨hno, -⟩
    exact hno (strContains_css_rewritten scheme path))]
  rw [pyUrlparse_simple_netloc scheme path hne halpha
    (fun c hc => ⟨(hpath c hc).2.1, (hpath c hc).2.2.1, (hpath c hc).2.2.2.1⟩)]
  have hat : strContains ['@'] path = false :=
    strContains_false '@' [] path (fun x hx => (hpath x hx).2.2.2.2)
  have hq : parseQs [] = [] := rfl
  simp [hat, hq]

/-- C7, counterexample.  Resolving the source URI `timer:5s` rewrites
it to `timer://5s` before parsing: the opaque path `5s` ends up as the
netloc, the parsed path is empty, and the constructor is invoked with
the rewritten URI rather than the original one. -/
theorem source_uri_simple_form_counterexample :
    (ConnectorManager.createSourceFromUri ("timer:5s".toList)).1.scheme
        = "timer".toList ∧
    (ConnectorManager.createSourceFromUri ("timer:5s".toList)).1.netloc
        = "5s".toList ∧
    (ConnectorManager.createSourceFromUri ("timer:5s".toList)).1.path
        ≠ "5s".toList ∧
    (ConnectorManager.createSourceFromUri ("timer:5s".toList)).2
        ≠ "timer:5s".toList := by
  refine ⟨?_, ?_, ?_, ?_⟩ <;> decide

/-- C7, amended.  For a simple-form URI `scheme:path` (lowercase
alphabetic scheme, opaque path free of `:`, `/`, `?`, `#`, `@`),
resolving a source connector first rewrites it to `scheme://path`; the
parsed record keeps the scheme but carries the opaque path as the
netloc with an empty path, and the constructor receives the rewritten
URI.  The static `_parse_uri`, applied directly to the simple form,
and the engine utility `parse_uri` do preserve scheme and path. -/
theorem source_uri_simple_form (scheme path : List Char) (hne : scheme ≠ [])
    (halpha : ∀ c ∈ scheme, c.isAlpha = true ∧ c.toLower = c)
    (hpath : ∀ c ∈ path, c ≠ ':' ∧ c ≠ '/' ∧ c ≠ '?' ∧ c ≠ '#' ∧ c ≠ '@') :
    ConnectorManager.createSourceFromUri (scheme ++ ':' :: path)
      = (⟨scheme, path, [], [], [], [], []⟩,
         scheme ++ ':' :: '/' :: '/' :: path) ∧
    ConnectorManager.parseUri (scheme ++ ':' :: path)
      = ⟨scheme, [], path, [], [], [], []⟩ ∧
    parse_uri (scheme ++ ':' :: path) = .ok (scheme, path) := by
  have hnosch : ∀ x ∈ scheme, x ≠ ':' := by
    intro x hx hcon
    have hA := (halpha x hx).1
    rw [hcon] at hA
    exact absurd hA (by decide)
  have hcss := strContains_css_false scheme path hnosch
    (fun x hx => (hpath x hx).1) (fun x hx => (hpath x hx).2.1)
  have hcol := strContains_colon scheme path
  have hsf := splitFirst_append ':' scheme path hnosch
  refine ⟨?_, ?_, ?_⟩
  · unfold ConnectorManager.createSourceFromUri
    rw [if_pos ⟨by simp [hcss], hcol⟩, hsf]
    dsimp only
    rw [parseUri_rewritten scheme path hne halpha hpath]
  · unfold ConnectorManager.parseUri
    rw [if_pos ⟨by simp [hcss], hcol⟩, hsf]
  · unfold parse_uri
    rw [if_neg (by simp [hcss]), if_pos hcol, hsf]

/-- Witness for the amended C7 at `timer:5s`. -/
theorem source_uri_simple_form_witness :
    ConnectorManager.createSourceFromUri ("timer".toList ++ ':' :: "5s".toList)
      = (⟨"timer".toList, "5s".toList, [], [], [], [], []⟩,
         "timer".toList ++ ':' :: '/' :: '/' :: "5s".toList) ∧
    ConnectorManager.parseUri ("timer".toList ++ ':' :: "5s".toList)
      = ⟨"timer".toList, [], "5s".toList, [], [], [], []⟩ ∧
    parse_uri ("timer".toList ++ ':' :: "5s".toList)
      = .ok ("timer".toList, "5s".toList) :=
  source_uri_simple_form ("timer".toList) ("5s".toList) (by decide) (by decide)
    (by decide)

end DialogChain
